import Mathlib

set_option maxRecDepth 8000

/-! Shallow embedding of the command-marker extraction logic of the
pseudo-terminal relay.  Two variants exist in the repository:

* the websocket variant (`remote-shell/src/api.rs`): a regex-based scanner
  running inside the blocking PTY read thread, which forwards every chunk
  verbatim to the raw binary-frame queue and extracts `ServerLogMsg` events
  from the marker protocol `ESC ] 6973 ; START BEL` / `ESC ] 6973 ; END ; d+ BEL`;
* the local variant (`pty-bash-hook/src/main.rs`): a vte-driven interpreter
  whose `osc_dispatch` reacts to OSC sequences on the private channel `666`
  (`CMD_START`, `CMD_END`, `PWD`) and writes records to a log file, while
  `capture_output` accumulates raw chunks into the active session.

Bytes are modelled as natural numbers; the Rust `String` values manipulated
by the scanner are modelled by their UTF-8 byte lists, which is faithful for
the ASCII data the marker protocol consists of (`String::len` and slicing in
the Rust code are byte-based).  The regex library calls are modelled by their
documented matching semantics, specialised to the three concrete patterns the
code compiles. -/

abbrev Byte := Nat

/-- UTF-8 bytes of an ASCII string literal. -/
def bstr (s : String) : List Byte := s.data.map Char.toNat

def ESC : Byte := 27
def BEL : Byte := 7

/-- The bytes of `"\x1b]6973;START\x07"`, the compiled `start_re` literal. -/
def startMarker : List Byte := [ESC] ++ bstr "]6973;START" ++ [BEL]

/-- The bytes of `"\x1b]6973;END;"`, the fixed head of the `end_re` pattern
(`"\x1b]6973;END;(\\d+)\x07"`). -/
def endHdr : List Byte := [ESC] ++ bstr "]6973;END;"

/-- An END marker carrying `c` as its code field: `ESC ] 6973 ; END ; c BEL`. -/
def endNum (c : String) : List Byte := endHdr ++ bstr c ++ [BEL]

def isDigit (b : Byte) : Bool := 48 ≤ b && b ≤ 57

/-- `[0-9;?]`, the CSI parameter class of the `ansi_re` pattern. -/
def isCsiParam (b : Byte) : Bool := isDigit b || b = 59 || b = 63

/-- `[a-zA-Z]`, the CSI final-byte class of the `ansi_re` pattern. -/
def isAlphaB (b : Byte) : Bool := (65 ≤ b && b ≤ 90) || (97 ≤ b && b ≤ 122)

/-- Leftmost occurrence of the literal `pat` in `s` (`Regex::find` for a
literal pattern): the smallest index at which `pat` is a prefix of the rest. -/
def findSub (pat : List Byte) : List Byte → Option Nat
  | [] => if pat.isPrefixOf ([] : List Byte) then some 0 else none
  | a :: t =>
    if pat.isPrefixOf (a :: t) then some 0
    else (findSub pat t).map (· + 1)

/-- Match attempt of `end_re` anchored at the head of `s`: the fixed header,
then a maximal nonempty digit run (the capture group), then `BEL`.  Returns
the match length together with the digit bytes. -/
def tryEnd (s : List Byte) : Option (Nat × List Byte) :=
  if endHdr.isPrefixOf s then
    if ((s.drop 11).takeWhile isDigit) = [] then none
    else
      match (s.drop 11).drop ((s.drop 11).takeWhile isDigit).length with
      | 7 :: _ => some (12 + ((s.drop 11).takeWhile isDigit).length,
                        (s.drop 11).takeWhile isDigit)
      | _ => none
  else none

/-- Leftmost match of `end_re` in `s` (`end_re.find` / `end_re.captures`):
start index, end index, and the bytes of capture group 1. -/
def findEnd : List Byte → Option (Nat × Nat × List Byte)
  | [] => (tryEnd []).map (fun p => (0, p.1, p.2))
  | a :: t =>
    match tryEnd (a :: t) with
    | some p => some (0, p.1, p.2)
    | none => (findEnd t).map (fun q => (q.1 + 1, q.2.1 + 1, q.2.2))

/-- Decimal value of a digit-byte run. -/
def digitsVal (ds : List Byte) : Nat := ds.foldl (fun a b => a * 10 + (b - 48)) 0

/-- `exit_code_str.parse::<i32>().unwrap_or(0)`: the decimal value when it
fits in an `i32`, and the fallback `0` on overflow (the digits come from the
`\d+` group, so no sign or other failure mode exists). -/
def parseExit (ds : List Byte) : Int :=
  if digitsVal ds ≤ 2147483647 then (digitsVal ds : Int) else 0

/-- One scan step of `ansi_re.replace_all(content, "")` with pattern
`(\x1b\[[0-9;?]*[a-zA-Z])|(\x1b][^\x07]*\x07)`: scan left to right, delete
every leftmost match, resume after it.  Fuel-driven so that it is structurally
recursive; `stripAnsi` supplies sufficient fuel. -/
def stripAnsiF : Nat → List Byte → List Byte
  | 0, s => s
  | _, [] => []
  | fuel + 1, b :: t =>
    if b = ESC then
      match t with
      | 91 :: u =>
        match u.drop (u.takeWhile isCsiParam).length with
        | c :: v =>
          if isAlphaB c then stripAnsiF fuel v else b :: stripAnsiF fuel t
        | [] => b :: stripAnsiF fuel t
      | 93 :: u =>
        match u.drop (u.takeWhile (fun x => x ≠ 7)).length with
        | _ :: v => stripAnsiF fuel v
        | [] => b :: stripAnsiF fuel t
      | _ => b :: stripAnsiF fuel t
    else b :: stripAnsiF fuel t

def stripAnsi (s : List Byte) : List Byte := stripAnsiF s.length s

/-- The outbound JSON log messages of `remote-shell/src/main.rs`
(`enum ServerLogMsg`). -/
inductive ServerLogMsg where
  | logStart (user host cwd : List Byte)
  | logOutput (data : List Byte)
  | logEnd (exitCode : Int)
deriving DecidableEq

/-- The scanner state the PTY read thread keeps across reads:
`parsing_str` and `is_capturing` in `handle_socket`. -/
structure RState where
  parsing_str : List Byte
  is_capturing : Bool
deriving DecidableEq

/-- The inner `loop` of the read thread in `handle_socket`, with fuel for
structural recursion (each iteration consumes at least one byte of
`parsing_str`, so `length + 1` fuel is always enough; see `rloopF_bound`).
Returns the capture flag, the retained `parsing_str`, and the log messages
sent on `tx_log`, in order. -/
def rloopF : Nat → Bool → List Byte → Bool × List Byte × List ServerLogMsg
  | 0, cap, s => (cap, s, [])
  | fuel + 1, false, s =>
    match findSub startMarker s with
    | some i => rloopF fuel true (s.drop (i + 13))
    | none =>
      (false, if 20 < s.length then s.drop (s.length - 20) else s, [])
  | fuel + 1, true, s =>
    match findEnd s with
    | some (i, e, ds) =>
      let clean := stripAnsi (s.take i)
      let evs := (if clean = [] then [] else [ServerLogMsg.logOutput clean])
                   ++ [ServerLogMsg.logEnd (parseExit ds)]
      let rest := rloopF fuel false (s.drop e)
      (rest.1, rest.2.1, evs ++ rest.2.2)
    | none =>
      if 30 < s.length then
        (true, s.drop (s.length - 30),
         if stripAnsi (s.take (s.length - 30)) = [] then []
         else [ServerLogMsg.logOutput (stripAnsi (s.take (s.length - 30)))])
      else (true, s, [])

/-- Handling of one successful `reader.read` delivery in the read thread:
append the lossy-decoded chunk to `parsing_str` and run the extraction loop.
(The raw chunk itself is sent to `tx_output` verbatim, before any parsing;
`runSession` accounts for that channel.) -/
def processChunk (st : RState) (data : List Byte) : RState × List ServerLogMsg :=
  let s := st.parsing_str ++ data
  let r := rloopF (s.length + 1) st.is_capturing s
  (⟨r.2.1, r.1⟩, r.2.2)

/-- The read thread over a whole sequence of chunk deliveries.  Returns the
bytes sent on the raw pass-through queue `tx_output` (first component), the
final scanner state, and the log messages sent on `tx_log`. -/
def runSession (st : RState) : List (List Byte) → List Byte × RState × List ServerLogMsg
  | [] => ([], st, [])
  | c :: rest =>
    let pr := processChunk st c
    let r := runSession pr.1 rest
    (c ++ r.1, r.2.1, pr.2 ++ r.2.2)

/-- Initial scanner state of a fresh connection. -/
def rinit : RState := ⟨[], false⟩

/-- Scanner state in the middle of a capture with an empty retained buffer. -/
def rcap : RState := ⟨[], true⟩

/-! ### Local variant (`pty-bash-hook/src/main.rs`) -/

/-- `struct CommandSession` of the local variant. -/
structure CommandSession where
  command : List Byte
  start_time : Nat
  output : List Byte
deriving DecidableEq

/-- The records `osc_dispatch` writes to `shell_commands.log`, modelled
structurally: the start banner, the end block (output section, exit code
line, duration line), and the `[PWD]` note. -/
inductive LogRecord where
  | started (command : List Byte) (time : Nat)
  | ended (output : List Byte) (exit_code : List Byte) (duration : Nat)
  | pwd (path : List Byte)
deriving DecidableEq

/-- `LogInterpreter::osc_dispatch`:  ignore anything not on channel `666`;
`CMD_START` with a third parameter replaces `current_session` with a fresh
record and writes the start banner (without a third parameter nothing
happens); `CMD_END` takes the session if one is active and writes the end
block, with the exit-code string defaulting to `"unknown"`; `PWD` with a
third parameter writes a note.  `now` stands for `SystemTime::now()`. -/
def osc_dispatch (params : List (List Byte)) (now : Nat)
    (st : Option CommandSession) : Option CommandSession × List LogRecord :=
  match params with
  | [] => (st, [])
  | p0 :: rest1 =>
    if p0 = bstr "666" then
      match rest1 with
      | [] => (st, [])
      | p1 :: rest2 =>
        if p1 = bstr "CMD_START" then
          match rest2 with
          | cmd :: _ => (some ⟨cmd, now, []⟩, [LogRecord.started cmd now])
          | [] => (st, [])
        else if p1 = bstr "CMD_END" then
          match st with
          | some session =>
            (none, [LogRecord.ended session.output
                      (match rest2 with
                       | c :: _ => c
                       | [] => bstr "unknown")
                      (now - session.start_time)])
          | none => (st, [])
        else if p1 = bstr "PWD" then
          match rest2 with
          | path :: _ => (st, [LogRecord.pwd path])
          | [] => (st, [])
        else (st, [])
    else (st, [])

/-- `LogInterpreter::capture_output`: append the raw chunk to the active
session's output buffer, verbatim; do nothing when no session is active. -/
def capture_output (st : Option CommandSession) (data : List Byte) :
    Option CommandSession :=
  match st with
  | some s => some { s with output := s.output ++ data }
  | none => none

/-! ### Helper lemmas -/

theorem findSub_le {pat : List Byte} :
    ∀ {s : List Byte} {i : Nat}, findSub pat s = some i → i + pat.length ≤ s.length := by
  intro s
  induction s with
  | nil =>
    intro i h
    unfold findSub at h
    split at h
    · next hp =>
      injection h with h0
      subst h0
      simpa using (List.isPrefixOf_iff_prefix.mp hp).length_le
    · exact absurd h (by simp)
  | cons a t ih =>
    intro i h
    unfold findSub at h
    split at h
    · next hp =>
      injection h with h0
      subst h0
      simpa using (List.isPrefixOf_iff_prefix.mp hp).length_le
    · next =>
      obtain ⟨j, hj, hji⟩ := Option.map_eq_some'.mp h
      have hlen := ih hj
      simp only [List.length_cons]
      omega

theorem tryEnd_bound {s : List Byte} {e : Nat} {ds : List Byte}
    (h : tryEnd s = some (e, ds)) : 13 ≤ e ∧ e ≤ s.length := by
  unfold tryEnd at h
  split at h
  · next hp =>
    split at h
    · exact absurd h (by simp)
    · next hds =>
      split at h
      · next x v heq =>
        injection h with h1
        have he : 12 + ((s.drop 11).takeWhile isDigit).length = e :=
          congrArg Prod.fst h1
        have hhdr : (11 : Nat) ≤ s.length := by
          have := (List.isPrefixOf_iff_prefix.mp hp).length_le
          simpa [endHdr, bstr] using this
        have htw : ((s.drop 11).takeWhile isDigit).length ≤ s.length - 11 := by
          have := (List.takeWhile_prefix (l := s.drop 11) isDigit).length_le
          simpa [List.length_drop] using this
        have hpos : 0 < ((s.drop 11).takeWhile isDigit).length :=
          List.length_pos.mpr hds
        have hlen := congrArg List.length heq
        simp only [List.length_drop, List.length_cons] at hlen
        omega
      · exact absurd h (by simp)
  · exact absurd h (by simp)

theorem findEnd_bound :
    ∀ {s : List Byte} {i e : Nat} {ds : List Byte},
      findEnd s = some (i, e, ds) → 1 ≤ e ∧ e ≤ s.length := by
  intro s
  induction s with
  | nil =>
    intro i e ds h
    unfold findEnd at h
    obtain ⟨p, hp, hpe⟩ := Option.map_eq_some'.mp h
    obtain ⟨pe, pds⟩ := p
    have := tryEnd_bound hp
    simp at this
    omega
  | cons a t ih =>
    intro i e ds h
    unfold findEnd at h
    split at h
    · next p hp =>
      obtain ⟨pe, pds⟩ := p
      injection h with h1
      have he : pe = e := by
        have := congrArg (fun q => q.2.1) h1
        simpa using this
      have hb := tryEnd_bound hp
      subst he
      exact ⟨by omega, hb.2⟩
    · next =>
      obtain ⟨q, hq, hqe⟩ := Option.map_eq_some'.mp h
      obtain ⟨qi, qe, qds⟩ := q
      have hb := ih hq
      have he : qe + 1 = e := by
        have := congrArg (fun r => r.2.1) hqe
        simpa using this
      simp only [List.length_cons]
      omega

theorem rloopF_bound :
    ∀ (fuel : Nat) (c : Bool) (s : List Byte), s.length < fuel →
      ((rloopF fuel c s).2.1).length ≤ 30 := by
  intro fuel
  induction fuel with
  | zero => intro c s h; omega
  | succ n ih =>
    intro c s h
    cases c with
    | false =>
      simp only [rloopF]
      split
      · next i hi =>
        apply ih
        have hb := findSub_le hi
        have hsm : startMarker.length = 13 := rfl
        rw [List.length_drop]
        omega
      · next =>
        dsimp only
        split
        · next h20 => rw [List.length_drop]; omega
        · next h20 => omega
    | true =>
      simp only [rloopF]
      split
      · next i e ds he =>
        dsimp only
        apply ih
        have hb := findEnd_bound he
        rw [List.length_drop]
        omega
      · next =>
        split
        · next h30 =>
          dsimp only
          rw [List.length_drop]; omega
        · next h30 =>
          dsimp only
          omega

theorem rloopF_no_start :
    ∀ (fuel : Nat) (c : Bool) (s u hh w : List Byte),
      ServerLogMsg.logStart u hh w ∉ (rloopF fuel c s).2.2 := by
  intro fuel
  induction fuel with
  | zero => intro c s u hh w; simp [rloopF]
  | succ n ih =>
    intro c s u hh w
    cases c with
    | false =>
      simp only [rloopF]
      split
      · next i hi => exact ih true _ u hh w
      · next => simp
    | true =>
      simp only [rloopF]
      split
      · next i e ds he =>
        dsimp only
        intro hmem
        rw [List.mem_append] at hmem
        rcases hmem with hm | hm
        · rw [List.mem_append] at hm
          rcases hm with hm | hm
          · split at hm <;> simp_all
          · simp at hm
        · exact ih false _ u hh w hm
      · next =>
        split
        · next =>
          dsimp only
          split <;> simp
        · next => simp

theorem processChunk_no_start (st : RState) (c u hh w : List Byte) :
    ServerLogMsg.logStart u hh w ∉ (processChunk st c).2 := by
  have h := rloopF_no_start ((st.parsing_str ++ c).length + 1) st.is_capturing
      (st.parsing_str ++ c) u hh w
  simpa [processChunk] using h

/-! ### Claim theorems -/

/-- C1: for every sequence of byte chunks read from the pseudo-terminal, the
bytes delivered to the raw pass-through channel (the `tx_output` binary-frame
queue) are byte-identical to the bytes read and their relative order is
preserved, regardless of any markers or escape sequences contained in them. -/
theorem raw_passthrough_identity (st : RState) (chunks : List (List Byte)) :
    (runSession st chunks).1 = chunks.flatten := by
  induction chunks generalizing st with
  | nil => rfl
  | cons c rest ih => simp [runSession, ih]

/-- C2 counterexample: in the local variant, a `CMD_END` marker without an
exit-code parameter arriving while a session is active records the exit code
as the literal string `unknown`, not as `0` — refuting the claimed default. -/
theorem exit_code_default_refuted :
    osc_dispatch [bstr "666", bstr "CMD_END"] 5 (some ⟨bstr "ls", 0, []⟩)
      = (none, [LogRecord.ended [] (bstr "unknown") 5])
    ∧ bstr "unknown" ≠ bstr "0" := by
  exact ⟨by decide, by decide⟩

/-- C2 amended: in the remote variant an `End` event is emitted only for END
markers carrying a nonempty decimal code (`END;0` yields exit code `0`,
`END;137` yields `137`); an END marker with the code absent or non-numeric is
not recognized at all — no event is emitted and capture continues.  In the
local variant the exit code is recorded as the literal parameter string,
defaulting to the string `unknown` when absent (`CMD_END;abc` records
`abc`). -/
theorem exit_code_parsing_amended :
    processChunk rinit (startMarker ++ endNum "0") = (rinit, [ServerLogMsg.logEnd 0])
    ∧ processChunk rinit (startMarker ++ endNum "137") = (rinit, [ServerLogMsg.logEnd 137])
    ∧ processChunk rcap ([ESC] ++ bstr "]6973;END" ++ [BEL])
        = (⟨[ESC] ++ bstr "]6973;END" ++ [BEL], true⟩, [])
    ∧ processChunk rcap (endNum "abc") = (⟨endNum "abc", true⟩, [])
    ∧ osc_dispatch [bstr "666", bstr "CMD_END"] 9 (some ⟨bstr "c", 2, bstr "out"⟩)
        = (none, [LogRecord.ended (bstr "out") (bstr "unknown") 7])
    ∧ osc_dispatch [bstr "666", bstr "CMD_END", bstr "abc"] 3 (some ⟨bstr "c", 1, []⟩)
        = (none, [LogRecord.ended [] (bstr "abc") 2]) := by
  refine ⟨by decide, by decide, by decide, by decide, by decide, by decide⟩

/-- C3 counterexample: in the local variant, a `CMD_START` marker without the
third (command-text) parameter is rejected — no session is created and no
banner is written — instead of beginning capture with an empty command. -/
theorem start_without_text_refuted :
    osc_dispatch [bstr "666", bstr "CMD_START"] 4 none = (none, []) := by
  decide

/-- C3 amended: in the local variant, `CMD_START` with a command-text
parameter begins capture — the fresh session has that command, the given
start time, and an empty accumulation buffer — but without the third
parameter the marker is ignored and no capture begins.  In the remote
variant the START marker (which carries no parameters) sets the capturing
flag and discards the retained buffer up to the marker. -/
theorem start_capture_amended :
    (∀ (cmd : List Byte) (rest : List (List Byte)) (now : Nat)
        (st : Option CommandSession),
      osc_dispatch (bstr "666" :: bstr "CMD_START" :: cmd :: rest) now st
        = (some ⟨cmd, now, []⟩, [LogRecord.started cmd now]))
    ∧ processChunk rinit startMarker = (⟨[], true⟩, [])
    ∧ osc_dispatch [bstr "666", bstr "CMD_START"] 0 none = (none, []) := by
  refine ⟨fun cmd rest now st => rfl, by decide, by decide⟩

/-- C4 counterexample: in the remote variant, a second START marker arriving
while a command is already being captured does not reset the accumulated
record: the output already captured before the second START (`a`) survives
and is emitted together with the output after it (`ab`), whereas a reset
would have yielded only `b`. -/
theorem second_start_refuted :
    processChunk rinit
        (startMarker ++ bstr "a" ++ startMarker ++ bstr "b" ++ endNum "0")
      = (rinit, [ServerLogMsg.logOutput (bstr "ab"), ServerLogMsg.logEnd 0])
    ∧ bstr "ab" ≠ bstr "b" := by
  exact ⟨by decide, by decide⟩

/-- C4 amended: capture state remains binary and no crash occurs in either
variant, but only the local variant resets on a second start marker: a
`CMD_START` arriving while a session is active silently replaces the active
record with a fresh one; in the remote variant a second START while capturing
is treated as ordinary captured content (stripped from the flushed output
like any OSC sequence) and the accumulation is not reset. -/
theorem single_capture_amended :
    (∀ (prev : CommandSession) (cmd : List Byte) (rest : List (List Byte))
        (now : Nat),
      osc_dispatch (bstr "666" :: bstr "CMD_START" :: cmd :: rest) now (some prev)
        = (some ⟨cmd, now, []⟩, [LogRecord.started cmd now]))
    ∧ processChunk rinit
          (startMarker ++ bstr "x" ++ startMarker ++ bstr "y" ++ endNum "7")
        = (rinit, [ServerLogMsg.logOutput (bstr "xy"), ServerLogMsg.logEnd 7]) := by
  refine ⟨fun prev cmd rest now => rfl, by decide⟩

/-- C5: a START marker followed immediately by an END marker with no
intervening printable bytes yields exactly one `End{exitCode}` event and zero
`Output` events: in the remote variant the emitted message list is exactly
`[logEnd code]`, and in the local variant the end block records an empty
captured output. -/
theorem start_end_adjacent_events :
    processChunk rinit (startMarker ++ endNum "0") = (rinit, [ServerLogMsg.logEnd 0])
    ∧ processChunk rinit (startMarker ++ endNum "137")
        = (rinit, [ServerLogMsg.logEnd 137])
    ∧ (osc_dispatch [bstr "666", bstr "CMD_START", bstr "ls"] 1 none).1
        = some ⟨bstr "ls", 1, []⟩
    ∧ osc_dispatch [bstr "666", bstr "CMD_END", bstr "0"] 2 (some ⟨bstr "ls", 1, []⟩)
        = (none, [LogRecord.ended [] (bstr "0") 1]) := by
  refine ⟨by decide, by decide, by decide, by decide⟩

/-- C6 counterexample: in the remote variant, carriage-return bytes in the
captured span are not dropped: the flushed `Output` payload for the capture
`x CR y` still contains the carriage return byte `13`, refuting the claim
that captured text contains no carriage returns. -/
theorem captured_cr_refuted :
    processChunk rinit (startMarker ++ [120, 13, 121] ++ endNum "0")
      = (rinit, [ServerLogMsg.logOutput [120, 13, 121], ServerLogMsg.logEnd 0])
    ∧ (13 : Byte) ∈ [120, 13, 121] := by
  exact ⟨by decide, by decide⟩

/-- C6 amended: in the local variant, `capture_output` appends each raw chunk
verbatim to the accumulation buffer — escape sequences, markers, and all
control bytes included — and appends nothing when idle.  In the remote
variant, ANSI CSI sequences and BEL-terminated OSC sequences are stripped
from the captured span at flush time, but carriage return, tab, and newline
bytes are all preserved in the emitted `Output` payloads. -/
theorem capture_filter_amended :
    (∀ (sess : CommandSession) (data : List Byte),
      capture_output (some sess) data = some { sess with output := sess.output ++ data })
    ∧ capture_output none (bstr "x") = none
    ∧ stripAnsi ([ESC, 91] ++ bstr "31m" ++ bstr "ab") = bstr "ab"
    ∧ processChunk rinit (startMarker ++ bstr "a" ++ [13, 9, 10] ++ bstr "b" ++ endNum "2")
        = (rinit, [ServerLogMsg.logOutput ([97] ++ [13, 9, 10] ++ [98]),
                   ServerLogMsg.logEnd 2]) := by
  refine ⟨fun sess data => rfl, by decide, by decide, by decide⟩

/-- C7: an END marker arriving when no command is being captured is a safe
no-op in both variants: the local dispatch leaves the state unchanged and
writes nothing, the remote scanner emits no events, and subsequent parsing is
unaffected — a later START/output/END triple produces exactly the same log
events as it would without the stray END before it. -/
theorem bare_end_noop :
    osc_dispatch [bstr "666", bstr "CMD_END", bstr "0"] 3 none = (none, [])
    ∧ processChunk rinit (endNum "0") = (⟨endNum "0", false⟩, [])
    ∧ (runSession rinit [endNum "0", startMarker ++ bstr "hi" ++ endNum "5"]).2.2
        = (runSession rinit [startMarker ++ bstr "hi" ++ endNum "5"]).2.2 := by
  refine ⟨by decide, by decide, by decide⟩

/-- C8: splitting a complete marker sequence at any byte offset across two
successive read deliveries yields exactly the same raw output, final scanner
state, and emitted events as the unsplit delivery: for the START marker, for
END markers with codes `0` and `137`, and for a full START-then-END
sequence. -/
theorem marker_split_robust :
    (∀ i : Fin 14, runSession rinit [startMarker.take i.val, startMarker.drop i.val]
        = runSession rinit [startMarker])
    ∧ (∀ i : Fin 14, runSession rcap [(endNum "0").take i.val, (endNum "0").drop i.val]
        = runSession rcap [endNum "0"])
    ∧ (∀ i : Fin 16,
        runSession rcap [(endNum "137").take i.val, (endNum "137").drop i.val]
          = runSession rcap [endNum "137"])
    ∧ (∀ i : Fin 27,
        runSession rinit [(startMarker ++ endNum "0").take i.val,
                          (startMarker ++ endNum "0").drop i.val]
          = runSession rinit [startMarker ++ endNum "0"]) := by
  refine ⟨by decide, by decide, by decide, by decide⟩

/-- C9: the buffer of unmatched input retained across successive reads is
bounded by the fixed constant 30 bytes (20 while idle, 30 while capturing —
enough to hold the longest marker literal): after every processed chunk, from
any prior state, the retained `parsing_str` is at most 30 bytes long. -/
theorem retained_buffer_bounded (st : RState) (data : List Byte) :
    ((processChunk st data).1).parsing_str.length ≤ 30 := by
  have h := rloopF_bound ((st.parsing_str ++ data).length + 1) st.is_capturing
      (st.parsing_str ++ data) (by omega)
  simpa [processChunk] using h

/-- C10: the remote server never sends a `logStart` message: for every prior
scanner state and every sequence of PTY chunk deliveries, no `logStart`
message ever appears among the log messages sent to the connection — the only
outbound log messages constructed are `logOutput` and `logEnd`. -/
theorem no_logstart_emitted (st : RState) (chunks : List (List Byte))
    (u hh w : List Byte) :
    ServerLogMsg.logStart u hh w ∉ (runSession st chunks).2.2 := by
  induction chunks generalizing st with
  | nil => simp [runSession]
  | cons c rest ih =>
    simp only [runSession]
    rw [List.mem_append, not_or]
    exact ⟨processChunk_no_start st c u hh w, ih _⟩
